import Mathlib

/-!
Verification development for a minimal HTTP/1.1 server (`src/main.rs`).

The byte stream of a connection is modelled as `List Nat` (each element a
byte value); Rust strings appear as their byte sequences, written with the
helper `bytes`. `BufRead::read_line` is modelled as reading bytes up to and
including the first LF byte (its UTF-8 validity check is not modelled; all
properties below quantify over ASCII text, where the two agree).
`HashMap` is modelled as an association list whose insert updates an
existing key in place and otherwise appends, so each key occurs at most
once. The file-system collaborator is passed in explicitly: a read function
`List Nat → Option (List Nat)` (path bytes to contents, `none` meaning
not-found or unreadable) and a write-success predicate
`List Nat → List Nat → Bool`; dispatch additionally returns the list of
attempted writes (path, bytes). Rust `expect` panics are modelled by
`Option`, `none` meaning the connection aborts.
-/

namespace HttpServer

/-- UTF-8 bytes of an ASCII string literal. -/
def bytes (s : String) : List Nat := s.data.map Char.toNat

/-- The byte-level restriction of Rust `char::is_whitespace` (the only
whitespace scalars below 0x80 are TAB, LF, VT, FF, CR and SPACE). -/
def isWsByte (c : Nat) : Bool :=
  c = 9 || c = 10 || c = 11 || c = 12 || c = 13 || c = 32

/-- Model of `BufRead::read_line`: the first component is the bytes up to
and including the first LF (or the whole stream if none), the second the
remainder of the stream. -/
def read_line : List Nat → List Nat × List Nat
  | [] => ([], [])
  | c :: cs =>
    if c = 10 then ([10], cs)
    else
      let p := read_line cs
      (c :: p.1, p.2)

/-- Model of `str::trim_end`: drop trailing whitespace. -/
def trimEnd (l : List Nat) : List Nat :=
  (l.reverse.dropWhile isWsByte).reverse

/-- Model of `str::split_once` for a nonempty needle `sep`: split at the
first occurrence of `sep`, if any. -/
def splitOnce (sep : List Nat) : List Nat → Option (List Nat × List Nat)
  | [] => none
  | c :: cs =>
    if sep.isPrefixOf (c :: cs) then some ([], (c :: cs).drop sep.length)
    else
      match splitOnce sep cs with
      | some pr => some (c :: pr.1, pr.2)
      | none => none

/-- Model of `str::split(c)`: the list of (possibly empty) pieces between
occurrences of the byte `c`; always nonempty. -/
def splitOnChar (c : Nat) : List Nat → List (List Nat)
  | [] => [[]]
  | x :: xs =>
    match splitOnChar c xs with
    | [] => [[]]
    | h :: t => if x = c then [] :: h :: t else (x :: h) :: t

/-- Header mapping: association list, each key at most once. -/
abbrev Headers := List (List Nat × List Nat)

/-- Model of `HashMap::insert`: overwrite the value if the key is present,
otherwise add the binding. -/
def insertH : Headers → List Nat → List Nat → Headers
  | [], k, v => [(k, v)]
  | (k', v') :: t, k, v =>
    if k' = k then (k, v) :: t else (k', v') :: insertH t k v

/-- Model of `HashMap::get`: the value bound to `k`, if any. -/
def findH : Headers → List Nat → Option (List Nat)
  | [], _ => none
  | (k', v') :: t, k => if k' = k then some v' else findH t k

/-- Decimal rendering of a natural number, as `format!("{}", n)` produces. -/
def renderDec (n : Nat) : List Nat :=
  if h : n < 10 then [48 + n]
  else renderDec (n / 10) ++ [48 + n % 10]
decreasing_by
  exact Nat.div_lt_self (by omega) (by omega)

/-- Is the byte an ASCII decimal digit? -/
def isDigit (c : Nat) : Bool := 48 ≤ c && c ≤ 57

/-- Numeric value of a string of decimal digit bytes. -/
def decVal (l : List Nat) : Nat :=
  l.foldl (fun a c => a * 10 + (c - 48)) 0

/-- Model of `str::parse::<usize>()`: an optional leading `+`, then a
nonempty run of decimal digits and nothing else, whose value fits in 64
bits (overflow during the fold is equivalent to the final value
overflowing, since the accumulator is nondecreasing). -/
def parse_usize (s : List Nat) : Option Nat :=
  let t := match s with
    | c :: cs => if c = 43 then cs else c :: cs
    | [] => []
  if t = [] then none
  else if t.all isDigit then
    if decVal t < 2 ^ 64 then some (decVal t) else none
  else none

inductive Verb where
  | Get
  | Post
deriving DecidableEq, Repr

inductive RequestParseError where
  | InvalidVerb
  | CouldNotReadStartLine
  | InvalidStructure
  | CouldNotReadHeader
  | InvalidHeader
  | InvalidContentLength
  | CouldNotReadBody
deriving DecidableEq, Repr

structure Request where
  verb : Verb
  path : List Nat
  version : List Nat
  headers : Headers
  body : Option (List Nat)
deriving DecidableEq, Repr

structure StatusCode where
  code : Nat
  status : List Nat
deriving DecidableEq, Repr

structure Content where
  mime_type : List Nat
  content : List Nat
deriving DecidableEq, Repr

structure Response where
  status_code : StatusCode
  content : Option Content
deriving DecidableEq, Repr

namespace status_codes

def OK : StatusCode := ⟨200, bytes "OK"⟩

def CREATED : StatusCode := ⟨201, bytes "Created"⟩

def NOT_FOUND : StatusCode := ⟨404, bytes "Not Found"⟩

def INTERNAL_SERVER_ERROR : StatusCode := ⟨500, bytes "Internal Server Error"⟩

end status_codes

theorem read_line_snd_length_le (s : List Nat) :
    (read_line s).2.length ≤ s.length := by
  induction s with
  | nil => simp [read_line]
  | cons c cs ih =>
    simp only [read_line]
    split
    · simp
    · simpa using Nat.le_succ_of_le ih

theorem read_line_snd_length_lt (s : List Nat) (h : s ≠ []) :
    (read_line s).2.length < s.length := by
  cases s with
  | nil => exact absurd rfl h
  | cons c cs =>
    simp only [read_line]
    split
    · simp
    · simpa using Nat.lt_succ_of_le (read_line_snd_length_le cs)

/-- Model of `read_headers`: read CRLF-terminated lines until one is empty
after `trim_end`; each non-blank line must split on `": "`; duplicate keys
overwrite. Returns the mapping and the unread remainder of the stream. -/
def read_headers (m : Headers) (s : List Nat) :
    Except RequestParseError (Headers × List Nat) :=
  if hs : s = [] then .ok (m, [])
  else
    let p := read_line s
    if trimEnd p.1 = [] then .ok (m, p.2)
    else
      match splitOnce (bytes ": ") (trimEnd p.1) with
      | some kv => read_headers (insertH m kv.1 kv.2) p.2
      | none => .error .InvalidHeader
termination_by s.length
decreasing_by
  exact read_line_snd_length_lt s hs

/-- The start-line portion of `parse_request`: split on spaces, take the
first three tokens as method, path and version (extra tokens are ignored;
fewer than three is a structure error), and match the method token
exactly against `GET`/`POST`. -/
def parse_start_line (line : List Nat) :
    Except RequestParseError (Verb × List Nat × List Nat) :=
  match splitOnChar 32 line with
  | t1 :: t2 :: t3 :: _ =>
    if t1 = bytes "GET" then .ok (.Get, t2, t3)
    else if t1 = bytes "POST" then .ok (.Post, t2, t3)
    else .error .InvalidVerb
  | _ => .error .InvalidStructure

/-- The body portion of `parse_request`: if a `Content-Length` header is
present, parse it as `usize` and read exactly that many bytes
(`read_exact`; a short stream is a body-read failure); otherwise no body
is read. Returns the body and the unread remainder. -/
def read_body (h : Headers) (s : List Nat) :
    Except RequestParseError (Option (List Nat) × List Nat) :=
  match findH h (bytes "Content-Length") with
  | some lenStr =>
    match parse_usize lenStr with
    | none => .error .InvalidContentLength
    | some n =>
      if s.length < n then .error .CouldNotReadBody
      else .ok (some (s.take n), s.drop n)
  | none => .ok (none, s)

/-- Model of `parse_request`: read the start line (not trimmed), parse it,
read the header block, then the body. Returns the request and the unread
remainder of the stream. -/
def parse_request (s : List Nat) :
    Except RequestParseError (Request × List Nat) :=
  let sl := read_line s
  match parse_start_line sl.1 with
  | .error e => .error e
  | .ok (v, p, ver) =>
    match read_headers [] sl.2 with
    | .error e => .error e
    | .ok (h, rest) =>
      match read_body h rest with
      | .error e => .error e
      | .ok (b, rem) => .ok (⟨v, p, ver, h, b⟩, rem)

/-- Model of `write_newline`: the CRLF pair. -/
def write_newline : List Nat := bytes "\r\n"

/-- Model of `write_header`: `write!("{}: {}", key, value)` then CRLF. -/
def write_header (k v : List Nat) : List Nat :=
  k ++ bytes ": " ++ v ++ write_newline

/-- Model of `Response::write_to_stream`: the exact byte sequence the
sequence of `write!`/`write_all` calls puts on the connection. -/
def Response.write_to_stream (r : Response) : List Nat :=
  bytes "HTTP/1.1 " ++ renderDec r.status_code.code ++ bytes " "
    ++ r.status_code.status
    ++ write_newline
    ++ match r.content with
       | some c =>
         write_header (bytes "Content-Type") c.mime_type
           ++ write_header (bytes "Content-Length") (renderDec c.content.length)
           ++ write_newline
           ++ c.content
       | none => write_newline ++ write_newline

/-- Model of `Response::empty_response`. -/
def Response.empty_response (sc : StatusCode) : Response := ⟨sc, none⟩

/-- Model of `Response::text_reponse` (name as in the source). -/
def Response.text_reponse (sc : StatusCode) (text : List Nat) : Response :=
  ⟨sc, some ⟨bytes "text/plain", text⟩⟩

/-- Model of `Response::file_response`, over the abstract read collaborator
(`std::fs::read`): `none` is any read error (not found / unreadable). -/
def Response.file_response (fsread : List Nat → Option (List Nat))
    (path : List Nat) : Response :=
  match fsread path with
  | some file_content =>
    ⟨status_codes.OK, some ⟨bytes "application/octet-stream", file_content⟩⟩
  | none => Response.empty_response status_codes.NOT_FOUND

/-- Model of `PathBuf::push` on Unix: an absolute component replaces the
path; otherwise a separator is interposed unless one is already there. -/
def pushPath (base p : List Nat) : List Nat :=
  if p.head? = some 47 then p
  else if base = [] then p
  else if base.getLast? = some 47 then base ++ p
  else base ++ 47 :: p

/-- Model of `[root, filename].iter().collect::<PathBuf>()`. -/
def collectPath (root filename : List Nat) : List Nat :=
  pushPath (pushPath [] root) filename

/-- Model of `handle_request`, over the abstract file-system collaborator:
`fsread` is `std::fs::read` (`none` = error), `fswrite` tells whether
`std::fs::write` at a path with given bytes succeeds. The result also
carries the list of attempted writes (path, bytes); `none` models an
`expect` panic (missing `User-Agent`, unset `files_root`, missing POST
body), which aborts the connection. -/
def handle_request (fsread : List Nat → Option (List Nat))
    (fswrite : List Nat → List Nat → Bool) (files_root : Option (List Nat))
    (r : Request) : Option (Response × List (List Nat × List Nat)) :=
  match r.path with
  | 47 :: p =>
    if p = [] then some (Response.empty_response status_codes.OK, [])
    else if p = bytes "user-agent" then
      match findH r.headers (bytes "User-Agent") with
      | some ua => some (Response.text_reponse status_codes.OK ua, [])
      | none => none
    else
      match splitOnce (bytes "/") p with
      | some pr =>
        if pr.1 = bytes "echo" then
          some (Response.text_reponse status_codes.OK pr.2, [])
        else if pr.1 = bytes "files" then
          match files_root with
          | none => none
          | some root =>
            let path := collectPath root pr.2
            match r.verb with
            | .Get => some (Response.file_response fsread path, [])
            | .Post =>
              match r.body with
              | none => none
              | some body =>
                if fswrite path body then
                  some (Response.empty_response status_codes.CREATED,
                        [(path, body)])
                else
                  some (Response.empty_response
                          status_codes.INTERNAL_SERVER_ERROR,
                        [(path, body)])
        else some (Response.empty_response status_codes.NOT_FOUND, [])
      | none => some (Response.empty_response status_codes.NOT_FOUND, [])
  | _ => some (Response.empty_response status_codes.NOT_FOUND, [])

/-- The serialization contract as the specification words it: status line
`HTTP/1.1 <code> <reason>` + CRLF; if content is present, `Content-Type:
<mime>` + CRLF, `Content-Length: <n>` + CRLF with `n` the body length in
bytes, a blank CRLF line, then the body verbatim; if absent, two blank
CRLF lines and no body. -/
def serialize_spec (r : Response) : List Nat :=
  bytes "HTTP/1.1 " ++ renderDec r.status_code.code ++ bytes " "
    ++ r.status_code.status ++ bytes "\r\n"
    ++ match r.content with
       | some c =>
         bytes "Content-Type: " ++ c.mime_type ++ bytes "\r\n"
           ++ bytes "Content-Length: " ++ renderDec c.content.length
           ++ bytes "\r\n" ++ bytes "\r\n" ++ c.content
       | none => bytes "\r\n" ++ bytes "\r\n"

/-- Modelled from the spec: the round-trip property's reader, re-parsing
bytes "as a raw HTTP message (status line, CRLF-terminated header lines,
blank line, then body)". It is not a function of the repository; the
header block is read with the repository's own `read_headers`, and the
body is the remainder of the bytes. -/
def rawParseMessage (s : List Nat) :
    Option (List Nat × Headers × List Nat) :=
  let p := read_line s
  match read_headers [] p.2 with
  | .ok hr => some (p.1, hr.1, hr.2)
  | .error _ => none

/-! ### Basic lemmas about the stream primitives -/

theorem read_line_append (a rest : List Nat) (ha : ∀ c ∈ a, c ≠ 10) :
    read_line (a ++ 10 :: rest) = (a ++ [10], rest) := by
  induction a with
  | nil => simp [read_line]
  | cons c cs ih =>
    have hc : c ≠ 10 := ha c (by simp)
    simp only [List.cons_append, read_line, if_neg hc, List.append_eq]
    rw [ih (fun x hx => ha x (by simp [hx]))]

theorem dropWhile_head_not (p : Nat → Bool) (r : List Nat) (c : Nat)
    (h : (r.dropWhile p).head? = some c) : p c = false := by
  induction r with
  | nil => simp [List.dropWhile] at h
  | cons d t ih =>
    rw [List.dropWhile_cons] at h
    by_cases hd : p d
    · rw [if_pos hd] at h
      exact ih h
    · rw [if_neg hd] at h
      simp at h
      subst h
      simpa using hd

theorem trimEnd_getLast_not_ws (l : List Nat) (c : Nat)
    (h : (trimEnd l).getLast? = some c) : isWsByte c = false := by
  rw [trimEnd, List.getLast?_reverse] at h
  exact dropWhile_head_not isWsByte l.reverse c h

theorem trimEnd_append_ws (l w : List Nat) (hw : ∀ c ∈ w, isWsByte c = true) :
    trimEnd (l ++ w) = trimEnd l := by
  rw [trimEnd, trimEnd, List.reverse_append, List.dropWhile_append]
  have : w.reverse.dropWhile isWsByte = [] := by
    rw [List.dropWhile_eq_nil_iff]
    intro x hx
    exact hw x (by simpa using hx)
  simp [this]

theorem trimEnd_eq_nil_of_ws (l : List Nat) (h : ∀ c ∈ l, isWsByte c = true) :
    trimEnd l = [] := by
  have : l = [] ++ l := rfl
  rw [this, trimEnd_append_ws [] l h]
  simp [trimEnd, List.dropWhile]

theorem trimEnd_eq_self (l : List Nat)
    (h : ∀ c, l.getLast? = some c → isWsByte c = false) : trimEnd l = l := by
  rw [trimEnd]
  cases hr : l.reverse with
  | nil =>
    have : l = [] := by simpa using congrArg List.reverse hr
    simp [this, List.dropWhile]
  | cons c t =>
    have hc : l.getLast? = some c := by
      rw [← List.head?_reverse, hr]; rfl
    rw [List.dropWhile_cons, if_neg (by simp [h c hc])]
    rw [← hr, List.reverse_reverse]

theorem trimEnd_ne_nil (l : List Nat) (c : Nat) (hc : l.getLast? = some c)
    (hcw : isWsByte c = false) : trimEnd l ≠ [] := by
  rw [trimEnd_eq_self l (fun d hd => by rw [hc] at hd; injection hd with h; rwa [← h])]
  intro h
  rw [h] at hc
  simp at hc

/-! ### Lemmas about splitOnce and splitOnChar -/

theorem splitOnce_cons (sep : List Nat) (c : Nat) (cs : List Nat) :
    splitOnce sep (c :: cs) =
      (if sep.isPrefixOf (c :: cs) then some ([], (c :: cs).drop sep.length)
       else match splitOnce sep cs with
            | some pr => some (c :: pr.1, pr.2)
            | none => none) := rfl

theorem splitOnce_append_pair (a b : Nat) (hba : b ≠ a) (k v : List Nat)
    (hk : splitOnce [a, b] k = none) :
    splitOnce [a, b] (k ++ a :: b :: v) = some (k, v) := by
  induction k with
  | nil =>
    rw [List.nil_append, splitOnce_cons]
    have : [a, b].isPrefixOf (a :: b :: v) = true := by
      simp [List.isPrefixOf]
    rw [if_pos this]
    simp
  | cons c cs ih =>
    rw [splitOnce_cons] at hk
    by_cases hpre : [a, b].isPrefixOf (c :: cs)
    · rw [if_pos hpre] at hk; exact absurd hk (by simp)
    · rw [if_neg hpre] at hk
      have hcs : splitOnce [a, b] cs = none := by
        cases h : splitOnce [a, b] cs with
        | none => rfl
        | some pr => rw [h] at hk; exact absurd hk (by simp)
      rw [List.cons_append, splitOnce_cons]
      have hpre2 : [a, b].isPrefixOf (c :: (cs ++ a :: b :: v)) = false := by
        cases cs with
        | nil =>
          have hb : (b == a) = false := by simpa using hba
          simp [List.isPrefixOf, hb]
        | cons d ds =>
          by_cases hca : a = c
          · by_cases hdb : b = d
            · exfalso
              apply hpre
              subst hca; subst hdb
              simp [List.isPrefixOf]
            · have hbd : (b == d) = false := by simpa using hdb
              simp [List.isPrefixOf, hbd]
          · have hac : (a == c) = false := by simpa using hca
            simp [List.isPrefixOf, hac]
      rw [hpre2]
      simp only [Bool.false_eq_true, if_false]
      rw [ih hcs]

theorem isPrefixOf_append_drop (sep l : List Nat) (h : sep.isPrefixOf l = true) :
    sep ++ l.drop sep.length = l := by
  have hp : sep <+: l := by rwa [← List.isPrefixOf_iff_prefix]
  obtain ⟨t, ht⟩ := hp
  rw [← ht, List.drop_left]

theorem splitOnce_structure (sep l pre post : List Nat)
    (h : splitOnce sep l = some (pre, post)) : l = pre ++ sep ++ post := by
  induction l generalizing pre with
  | nil => simp [splitOnce] at h
  | cons c cs ih =>
    rw [splitOnce_cons] at h
    by_cases hpre : sep.isPrefixOf (c :: cs)
    · rw [if_pos hpre] at h
      injection h with h1
      injection h1 with h2 h3
      subst h2; subst h3
      simp only [List.nil_append]
      exact (isPrefixOf_append_drop sep (c :: cs) hpre).symm
    · rw [if_neg hpre] at h
      cases hc : splitOnce sep cs with
      | none => rw [hc] at h; exact absurd h (by simp)
      | some pr =>
        rw [hc] at h
        injection h with h1
        injection h1 with h2 h3
        subst h3
        have := ih pr.1 (by rw [hc])
        rw [← h2, this]
        simp

theorem splitOnChar_ne_nil (c : Nat) (l : List Nat) : splitOnChar c l ≠ [] := by
  cases l with
  | nil => simp [splitOnChar]
  | cons x xs =>
    simp only [splitOnChar]
    cases h : splitOnChar c xs with
    | nil => simp
    | cons hh tt =>
      by_cases hx : x = c <;> simp [hx]

theorem splitOnChar_no (c : Nat) (a : List Nat) (h : ∀ x ∈ a, x ≠ c) :
    splitOnChar c a = [a] := by
  induction a with
  | nil => rfl
  | cons x xs ih =>
    simp only [splitOnChar]
    rw [ih (fun y hy => h y (by simp [hy]))]
    simp [h x (by simp)]

theorem splitOnChar_append (c : Nat) (a l : List Nat) (h : ∀ x ∈ a, x ≠ c) :
    splitOnChar c (a ++ c :: l) = a :: splitOnChar c l := by
  induction a with
  | nil =>
    simp only [List.nil_append, splitOnChar]
    cases hsp : splitOnChar c l with
    | nil => exact absurd hsp (splitOnChar_ne_nil c l)
    | cons hh tt => simp
  | cons x xs ih =>
    simp only [List.cons_append, splitOnChar, List.append_eq]
    rw [ih (fun y hy => h y (by simp [hy]))]
    simp [h x (by simp)]

/-! ### Lemmas about the header mapping -/

theorem findH_insertH (m : Headers) (k v q : List Nat) :
    findH (insertH m k v) q = if q = k then some v else findH m q := by
  induction m with
  | nil =>
    by_cases hqk : q = k
    · simp [insertH, findH, hqk]
    · have : ¬ (k = q) := fun h => hqk h.symm
      simp [insertH, findH, hqk, this]
  | cons kv t ih =>
    obtain ⟨k', v'⟩ := kv
    by_cases hk : k' = k
    · subst hk
      by_cases hqk : q = k'
      · simp [insertH, findH, hqk]
      · have : ¬ (k' = q) := fun h => hqk h.symm
        simp [insertH, findH, hqk, this]
    · by_cases hq : k' = q
      · have hqk : ¬ (q = k) := by rw [← hq]; exact hk
        simp [insertH, findH, hk, hq, hqk]
      · simp [insertH, findH, hk, hq, ih]

/-- The keys of a header mapping. -/
def keysH (m : Headers) : List (List Nat) := m.map Prod.fst

theorem mem_keysH_insertH (m : Headers) (k v q : List Nat) :
    q ∈ keysH (insertH m k v) ↔ q = k ∨ q ∈ keysH m := by
  induction m with
  | nil => simp [insertH, keysH]
  | cons kv t ih =>
    obtain ⟨k', v'⟩ := kv
    by_cases hk : k' = k
    · subst hk
      simp [insertH, keysH]
    · simp only [insertH, if_neg hk, keysH, List.map_cons, List.mem_cons]
      rw [show (List.map Prod.fst (insertH t k v)) = keysH (insertH t k v) from rfl]
      rw [ih]
      rw [show (List.map Prod.fst t) = keysH t from rfl]
      tauto

theorem nodup_keysH_insertH (m : Headers) (k v : List Nat)
    (h : (keysH m).Nodup) : (keysH (insertH m k v)).Nodup := by
  induction m with
  | nil => simp [insertH, keysH]
  | cons kv t ih =>
    obtain ⟨k', v'⟩ := kv
    simp only [keysH, List.map_cons, List.nodup_cons] at h
    by_cases hk : k' = k
    · subst hk
      rw [show insertH ((k', v') :: t) k' v = (k', v) :: t from by simp [insertH]]
      simp only [keysH, List.map_cons, List.nodup_cons]
      exact h
    · simp only [insertH, if_neg hk, keysH, List.map_cons, List.nodup_cons]
      constructor
      · intro hmem
        rw [show (List.map Prod.fst (insertH t k v)) = keysH (insertH t k v) from rfl] at hmem
        rw [mem_keysH_insertH] at hmem
        cases hmem with
        | inl he => exact hk he
        | inr he => exact h.1 he
      · exact ih h.2

/-! ### Unfolding and step lemmas for read_headers -/

theorem read_headers_eq (m : Headers) (s : List Nat) :
    read_headers m s =
      (if trimEnd (read_line s).1 = [] then .ok (m, (read_line s).2)
       else
         match splitOnce (bytes ": ") (trimEnd (read_line s).1) with
         | some kv => read_headers (insertH m kv.1 kv.2) (read_line s).2
         | none => .error .InvalidHeader) := by
  by_cases hs : s = []
  · subst hs
    rw [read_headers]
    simp [read_line, trimEnd, List.dropWhile]
  · rw [read_headers]
    simp [hs]

theorem read_headers_step (m : Headers) (k v w rest : List Nat)
    (hk10 : ∀ c ∈ k, c ≠ 10) (hv10 : ∀ c ∈ v, c ≠ 10)
    (hw : ∀ c ∈ w, isWsByte c = true ∧ c ≠ 10)
    (hksep : splitOnce (bytes ": ") k = none)
    (hvlast : ∃ c, v.getLast? = some c ∧ isWsByte c = false) :
    read_headers m (k ++ bytes ": " ++ v ++ w ++ 10 :: rest) =
      read_headers (insertH m k v) rest := by
  obtain ⟨c0, hc0, hc0w⟩ := hvlast
  have hv_ne : v ≠ [] := by
    intro h
    rw [h] at hc0
    simp at hc0
  have hA : ∀ c ∈ k ++ bytes ": " ++ v ++ w, c ≠ 10 := by
    intro c hc
    simp only [List.append_assoc, List.mem_append] at hc
    rcases hc with hc | hc | hc | hc
    · exact hk10 c hc
    · rw [show bytes ": " = [58, 32] from rfl] at hc
      simp at hc
      rcases hc with rfl | rfl <;> omega
    · exact hv10 c hc
    · exact (hw c hc).2
  have hr : read_line (k ++ bytes ": " ++ v ++ w ++ 10 :: rest) =
      ((k ++ bytes ": " ++ v ++ w) ++ [10], rest) :=
    read_line_append (k ++ bytes ": " ++ v ++ w) rest hA
  rw [read_headers_eq, hr]
  have htr : trimEnd ((k ++ bytes ": " ++ v ++ w) ++ [10]) = k ++ bytes ": " ++ v := by
    rw [show (k ++ bytes ": " ++ v ++ w) ++ [10] = (k ++ bytes ": " ++ v) ++ (w ++ [10]) by
      simp [List.append_assoc]]
    rw [trimEnd_append_ws _ (w ++ [10]) (by
      intro c hc
      simp only [List.mem_append] at hc
      rcases hc with hc | hc
      · exact (hw c hc).1
      · simp at hc
        subst hc
        rfl)]
    apply trimEnd_eq_self
    intro c hc
    rw [List.append_assoc, List.getLast?_append_of_ne_nil, List.getLast?_append_of_ne_nil] at hc
    · rw [hc0] at hc
      injection hc with h
      rwa [← h]
    · exact hv_ne
    · simp [hv_ne]
  rw [htr]
  have hne : k ++ bytes ": " ++ v ≠ [] := by simp [bytes]
  rw [if_neg hne]
  have hsp : splitOnce (bytes ": ") (k ++ bytes ": " ++ v) = some (k, v) := by
    have : k ++ bytes ": " ++ v = k ++ 58 :: 32 :: v := by
      simp [bytes, List.append_assoc]
    rw [this]
    exact splitOnce_append_pair 58 32 (by omega) k v hksep
  rw [hsp]

theorem read_headers_blank (m : Headers) (w rest : List Nat)
    (hw : ∀ c ∈ w, isWsByte c = true ∧ c ≠ 10) :
    read_headers m (w ++ 10 :: rest) = .ok (m, rest) := by
  have hr : read_line (w ++ 10 :: rest) = (w ++ [10], rest) :=
    read_line_append w rest (fun c hc => (hw c hc).2)
  rw [read_headers_eq, hr]
  have htr : trimEnd (w ++ [10]) = [] := by
    apply trimEnd_eq_nil_of_ws
    intro c hc
    simp only [List.mem_append] at hc
    rcases hc with hc | hc
    · exact (hw c hc).1
    · simp at hc
      subst hc
      rfl
  rw [htr]
  simp

theorem read_headers_malformed (m : Headers) (line rest : List Nat)
    (h10 : ∀ c ∈ line, c ≠ 10) (hne : trimEnd line ≠ [])
    (hsp : splitOnce (bytes ": ") (trimEnd line) = none) :
    read_headers m (line ++ 10 :: rest) = .error .InvalidHeader := by
  have hr : read_line (line ++ 10 :: rest) = (line ++ [10], rest) :=
    read_line_append line rest h10
  rw [read_headers_eq, hr]
  have htr : trimEnd (line ++ [10]) = trimEnd line := by
    apply trimEnd_append_ws
    intro c hc
    simp at hc
    subst hc
    rfl
  rw [htr, if_neg hne, hsp]

/-! ### Decimal rendering -/

theorem renderDec_digits (n : Nat) : ∀ c ∈ renderDec n, isDigit c = true := by
  induction n using Nat.strong_induction_on with
  | _ n ih =>
    intro c hc
    rw [renderDec] at hc
    by_cases h : n < 10
    · rw [dif_pos h] at hc
      simp at hc
      subst hc
      simp [isDigit]
      omega
    · rw [dif_neg h] at hc
      simp only [List.mem_append] at hc
      rcases hc with hc | hc
      · exact ih (n / 10) (Nat.div_lt_self (by omega) (by omega)) c hc
      · simp at hc
        subst hc
        have : n % 10 < 10 := Nat.mod_lt n (by omega)
        simp [isDigit]
        omega

theorem renderDec_ne_nil (n : Nat) : renderDec n ≠ [] := by
  rw [renderDec]
  by_cases h : n < 10
  · rw [dif_pos h]; simp
  · rw [dif_neg h]; simp

theorem decVal_append_digit (l : List Nat) (d : Nat) :
    decVal (l ++ [d]) = decVal l * 10 + (d - 48) := by
  simp [decVal, List.foldl_append]

theorem decVal_renderDec (n : Nat) : decVal (renderDec n) = n := by
  induction n using Nat.strong_induction_on with
  | _ n ih =>
    rw [renderDec]
    by_cases h : n < 10
    · rw [dif_pos h]
      simp [decVal]
    · rw [dif_neg h]
      rw [decVal_append_digit, ih (n / 10) (Nat.div_lt_self (by omega) (by omega))]
      have h1 : n % 10 < 10 := Nat.mod_lt n (by omega)
      omega

theorem isDigit_not_ws (c : Nat) (h : isDigit c = true) : isWsByte c = false := by
  simp [isDigit] at h
  simp [isWsByte]
  omega

theorem isDigit_ne_lf (c : Nat) (h : isDigit c = true) : c ≠ 10 := by
  simp [isDigit] at h
  omega

/-! ### Last-binding lookup and the header block -/

theorem findH_append (a b : Headers) (q : List Nat) :
    findH (a ++ b) q =
      (match findH a q with
       | some v => some v
       | none => findH b q) := by
  induction a with
  | nil => simp [findH]
  | cons kv t ih =>
    obtain ⟨k', v'⟩ := kv
    by_cases hk : k' = q
    · simp [findH, hk]
    · simp [findH, hk, ih]

/-- The value of the last occurrence of a key in a raw (possibly
duplicated) binding list. -/
def lastAssoc (hs : Headers) (q : List Nat) : Option (List Nat) :=
  findH hs.reverse q

/-- One step of the header-mapping fold. -/
def insertStep (m : Headers) (kv : List Nat × List Nat) : Headers :=
  insertH m kv.1 kv.2

theorem findH_foldl (hs : Headers) (m : Headers) (q : List Nat) :
    findH (hs.foldl insertStep m) q =
      (match lastAssoc hs q with
       | some v => some v
       | none => findH m q) := by
  induction hs generalizing m with
  | nil => simp [lastAssoc, findH]
  | cons kv t ih =>
    rw [List.foldl_cons, ih]
    have hla : lastAssoc (kv :: t) q =
        (match lastAssoc t q with
         | some v => some v
         | none => if kv.1 = q then some kv.2 else none) := by
      simp only [lastAssoc, List.reverse_cons, findH_append]
      cases findH t.reverse q <;> simp [findH]
    rw [hla]
    cases hl : lastAssoc t q with
    | some v => simp
    | none =>
      simp only []
      rw [insertStep, findH_insertH]
      by_cases hq : q = kv.1
      · simp [hq]
      · have : ¬ (kv.1 = q) := fun h => hq h.symm
        simp [hq, this]

theorem nodup_keysH_foldl (hs : Headers) (m : Headers)
    (h : (keysH m).Nodup) : (keysH (hs.foldl insertStep m)).Nodup := by
  induction hs generalizing m with
  | nil => exact h
  | cons kv t ih =>
    rw [List.foldl_cons]
    exact ih _ (nodup_keysH_insertH m kv.1 kv.2 h)

/-- The byte encoding of one well-formed header line. -/
def encodeHeaderLine (kv : List Nat × List Nat) : List Nat :=
  kv.1 ++ bytes ": " ++ kv.2 ++ bytes "\r\n"

/-- Well-formedness of a header entry (key, value) as a wire line: no LF
in either part, only ASCII bytes, the key contains no `": "` occurrence,
and the value ends in a non-whitespace byte. -/
def WFHeaderLine (kv : List Nat × List Nat) : Prop :=
  (∀ c ∈ kv.1, c ≠ 10 ∧ c < 128) ∧ (∀ c ∈ kv.2, c ≠ 10 ∧ c < 128) ∧
    splitOnce (bytes ": ") kv.1 = none ∧
    (∃ c, kv.2.getLast? = some c ∧ isWsByte c = false)

theorem read_headers_block (hs : Headers) (m : Headers) (rest : List Nat)
    (hwf : ∀ kv ∈ hs, WFHeaderLine kv) :
    read_headers m ((hs.map encodeHeaderLine).flatten ++ bytes "\r\n" ++ rest) =
      .ok (hs.foldl insertStep m, rest) := by
  induction hs generalizing m with
  | nil =>
    simp only [List.map_nil, List.flatten, List.nil_append, List.foldl_nil]
    rw [show bytes "\r\n" ++ rest = [13] ++ 10 :: rest from rfl]
    exact read_headers_blank m [13] rest (by intro c hc; simp at hc; subst hc; exact ⟨rfl, by omega⟩)
  | cons kv t ih =>
    obtain ⟨hwk, hwv, hwsep, hwlast⟩ := hwf kv (by simp)
    have hshape : ((kv :: t).map encodeHeaderLine).flatten ++ bytes "\r\n" ++ rest =
        kv.1 ++ bytes ": " ++ kv.2 ++ [13] ++ 10 ::
          ((t.map encodeHeaderLine).flatten ++ bytes "\r\n" ++ rest) := by
      simp only [List.map_cons, List.flatten, encodeHeaderLine]
      rw [show bytes "\r\n" = [13, 10] from rfl]
      simp [List.append_assoc]
    rw [hshape]
    rw [read_headers_step m kv.1 kv.2 [13]
          ((t.map encodeHeaderLine).flatten ++ bytes "\r\n" ++ rest)
          (fun c hc => (hwk c hc).1) (fun c hc => (hwv c hc).1)
          (by intro c hc; simp at hc; subst hc; exact ⟨rfl, by omega⟩)
          hwsep hwlast]
    rw [ih (insertH m kv.1 kv.2) (fun kv' h' => hwf kv' (by simp [h']))]
    rw [List.foldl_cons]
    rfl

theorem mem_insertH (m : Headers) (k v : List Nat) (kv : List Nat × List Nat)
    (h : kv ∈ insertH m k v) : kv = (k, v) ∨ kv ∈ m := by
  induction m with
  | nil => simp [insertH] at h; simp [h]
  | cons kv' t ih =>
    obtain ⟨k', v'⟩ := kv'
    by_cases hk : k' = k
    · subst hk
      rw [show insertH ((k', v') :: t) k' v = (k', v) :: t from by simp [insertH]] at h
      simp only [List.mem_cons] at h
      rcases h with h | h
      · exact Or.inl h
      · exact Or.inr (by simp [h])
    · rw [show insertH ((k', v') :: t) k v = (k', v') :: insertH t k v from by
        simp [insertH, hk]] at h
      simp only [List.mem_cons] at h
      rcases h with h | h
      · exact Or.inr (by simp [h])
      · rcases ih h with h' | h'
        · exact Or.inl h'
        · exact Or.inr (by simp [h'])

/-- Any property of the mapping accumulator preserved by the insertions
actually performed (key/value pairs obtained by splitting a trimmed line
on `": "`) holds of the mapping a successful `read_headers` returns. -/
theorem read_headers_ok_invariant (P : Headers → Prop)
    (hstep : ∀ m t k v, P m → splitOnce (bytes ": ") (trimEnd t) = some (k, v) →
      P (insertH m k v)) :
    ∀ n s m M rest, s.length ≤ n → P m → read_headers m s = .ok (M, rest) → P M := by
  intro n
  induction n with
  | zero =>
    intro s m M rest hlen hP h
    have hs : s = [] := by
      cases s with
      | nil => rfl
      | cons c cs => simp at hlen
    subst hs
    rw [read_headers] at h
    simp at h
    rw [← h.1]
    exact hP
  | succ n ih =>
    intro s m M rest hlen hP h
    rw [read_headers_eq] at h
    by_cases htr : trimEnd (read_line s).1 = []
    · rw [if_pos htr] at h
      injection h with h'
      injection h' with h1 h2
      rw [← h1]
      exact hP
    · rw [if_neg htr] at h
      cases hsp : splitOnce (bytes ": ") (trimEnd (read_line s).1) with
      | none => rw [hsp] at h; exact absurd h (by simp)
      | some kv =>
        rw [hsp] at h
        have hsne : s ≠ [] := by
          intro he
          subst he
          simp [read_line, trimEnd, List.dropWhile] at htr
        have hlt : (read_line s).2.length ≤ n := by
          have := read_line_snd_length_lt s hsne
          omega
        exact ih (read_line s).2 (insertH m kv.1 kv.2) M rest hlt
          (hstep m (read_line s).1 kv.1 kv.2 hP (by simpa using hsp)) h

/-! ### Start-line evaluation helpers -/

/-- An ASCII token containing no space and no LF. -/
abbrev CleanToken (t : List Nat) : Prop := ∀ c ∈ t, c ≠ 32 ∧ c ≠ 10 ∧ c < 128

theorem method_no_space (method : List Nat)
    (hm : method = bytes "GET" ∨ method = bytes "POST") :
    ∀ c ∈ method, c ≠ 32 := by
  rcases hm with rfl | rfl <;> decide

theorem method_no_lf (method : List Nat)
    (hm : method = bytes "GET" ∨ method = bytes "POST") :
    ∀ c ∈ method, c ≠ 10 := by
  rcases hm with rfl | rfl <;> decide

theorem parse_start_line_eval (method p : List Nat) (tail3 : List Nat)
    (hm : method = bytes "GET" ∨ method = bytes "POST")
    (hp : ∀ c ∈ p, c ≠ 32) :
    parse_start_line (method ++ 32 :: (p ++ 32 :: tail3)) =
      .ok (if method = bytes "GET" then Verb.Get else Verb.Post, p,
           (splitOnChar 32 tail3).headI) := by
  have h1 : splitOnChar 32 (method ++ 32 :: (p ++ 32 :: tail3)) =
      method :: p :: splitOnChar 32 tail3 := by
    rw [splitOnChar_append 32 method _ (method_no_space method hm),
        splitOnChar_append 32 p _ hp]
  rw [parse_start_line, h1]
  cases h3 : splitOnChar 32 tail3 with
  | nil => exact absurd h3 (splitOnChar_ne_nil 32 tail3)
  | cons t3 tl =>
    rcases hm with rfl | rfl
    · simp
    · have hne : ¬ (bytes "POST" = bytes "GET") := by decide
      simp [hne]

theorem read_headers_crlf (m : Headers) (rest : List Nat) :
    read_headers m (13 :: 10 :: rest) = .ok (m, rest) := by
  have := read_headers_blank m [13] rest
    (by intro c hc; simp at hc; subst hc; exact ⟨rfl, by omega⟩)
  simpa using this

/-- Full evaluation of `parse_request` on a start line of exactly three
clean tokens followed by the empty header block. -/
theorem parse_request_three_tokens (method p ver : List Nat)
    (hm : method = bytes "GET" ∨ method = bytes "POST")
    (hp : CleanToken p) (hv : CleanToken ver) :
    parse_request (method ++ [32] ++ p ++ [32] ++ ver ++ bytes "\r\n" ++ bytes "\r\n") =
      .ok (⟨if method = bytes "GET" then Verb.Get else Verb.Post, p,
            ver ++ bytes "\r\n", [], none⟩, []) := by
  have hA : ∀ c ∈ method ++ [32] ++ p ++ [32] ++ ver ++ [13], c ≠ 10 := by
    intro c hc
    simp only [List.append_assoc, List.mem_append, List.mem_cons,
      List.not_mem_nil, or_false] at hc
    rcases hc with hc | rfl | hc | rfl | hc | rfl
    · exact method_no_lf method hm c hc
    · omega
    · exact (hp c hc).2.1
    · omega
    · exact (hv c hc).2.1
    · omega
  have hstream : method ++ [32] ++ p ++ [32] ++ ver ++ bytes "\r\n" ++ bytes "\r\n" =
      (method ++ [32] ++ p ++ [32] ++ ver ++ [13]) ++ 10 :: (13 :: 10 :: []) := by
    rw [show bytes "\r\n" = [13, 10] from rfl]
    simp [List.append_assoc]
  have hline : (method ++ [32] ++ p ++ [32] ++ ver ++ [13]) ++ [10] =
      method ++ 32 :: (p ++ 32 :: (ver ++ [13, 10])) := by
    simp [List.append_assoc]
  have hsl : parse_start_line ((method ++ [32] ++ p ++ [32] ++ ver ++ [13]) ++ [10]) =
      .ok (if method = bytes "GET" then Verb.Get else Verb.Post, p, ver ++ [13, 10]) := by
    rw [hline, parse_start_line_eval method p (ver ++ [13, 10]) hm
      (fun c hc => (hp c hc).1)]
    rw [splitOnChar_no 32 (ver ++ [13, 10]) (by
      intro x hx
      simp only [List.mem_append, List.mem_cons, List.not_mem_nil, or_false] at hx
      rcases hx with hx | rfl | rfl
      · exact (hv x hx).1
      · omega
      · omega)]
    rfl
  rw [hstream, parse_request]
  rw [read_line_append _ _ hA]
  simp only [hsl, read_headers_crlf, read_body, findH]
  rfl

/-- Full evaluation of `parse_request` on a start line with extra
space-separated text after the third token. -/
theorem parse_request_extra_tokens (method p ver extra : List Nat)
    (hm : method = bytes "GET" ∨ method = bytes "POST")
    (hp : CleanToken p) (hv : CleanToken ver)
    (hex : ∀ c ∈ extra, c ≠ 10 ∧ c < 128) :
    parse_request (method ++ [32] ++ p ++ [32] ++ ver ++ [32] ++ extra
        ++ bytes "\r\n" ++ bytes "\r\n") =
      .ok (⟨if method = bytes "GET" then Verb.Get else Verb.Post, p,
            ver, [], none⟩, []) := by
  have hA : ∀ c ∈ method ++ [32] ++ p ++ [32] ++ ver ++ [32] ++ extra ++ [13], c ≠ 10 := by
    intro c hc
    simp only [List.append_assoc, List.mem_append, List.mem_cons,
      List.not_mem_nil, or_false] at hc
    rcases hc with hc | rfl | hc | rfl | hc | rfl | hc | rfl
    · exact method_no_lf method hm c hc
    · omega
    · exact (hp c hc).2.1
    · omega
    · exact (hv c hc).2.1
    · omega
    · exact (hex c hc).1
    · omega
  have hstream : method ++ [32] ++ p ++ [32] ++ ver ++ [32] ++ extra
      ++ bytes "\r\n" ++ bytes "\r\n" =
      (method ++ [32] ++ p ++ [32] ++ ver ++ [32] ++ extra ++ [13]) ++ 10 :: (13 :: 10 :: []) := by
    rw [show bytes "\r\n" = [13, 10] from rfl]
    simp [List.append_assoc]
  have hline : (method ++ [32] ++ p ++ [32] ++ ver ++ [32] ++ extra ++ [13]) ++ [10] =
      method ++ 32 :: (p ++ 32 :: (ver ++ 32 :: (extra ++ [13, 10]))) := by
    simp [List.append_assoc]
  have hsl : parse_start_line ((method ++ [32] ++ p ++ [32] ++ ver ++ [32] ++ extra ++ [13]) ++ [10]) =
      .ok (if method = bytes "GET" then Verb.Get else Verb.Post, p, ver) := by
    rw [hline, parse_start_line_eval method p (ver ++ 32 :: (extra ++ [13, 10])) hm
      (fun c hc => (hp c hc).1)]
    rw [splitOnChar_append 32 ver _ (fun c hc => (hv c hc).1)]
    rfl
  rw [hstream, parse_request]
  rw [read_line_append _ _ hA]
  simp only [hsl, read_headers_crlf, read_body, findH]

/-! ### Dispatch evaluation helpers -/

theorem handle_request_echo (fsread : List Nat → Option (List Nat))
    (fswrite : List Nat → List Nat → Bool) (cfg : Option (List Nat))
    (verb : Verb) (ver : List Nat) (hdrs : Headers) (body : Option (List Nat))
    (rest : List Nat) :
    handle_request fsread fswrite cfg ⟨verb, bytes "/echo/" ++ rest, ver, hdrs, body⟩ =
      some (Response.text_reponse status_codes.OK rest, []) := by
  rw [show bytes "/echo/" ++ rest = 47 :: (101 :: 99 :: 104 :: 111 :: 47 :: rest) from rfl]
  simp [handle_request, splitOnce, List.isPrefixOf, bytes]

theorem handle_request_files (fsread : List Nat → Option (List Nat))
    (fswrite : List Nat → List Nat → Bool) (root : List Nat)
    (verb : Verb) (ver : List Nat) (hdrs : Headers) (body : Option (List Nat))
    (name : List Nat) :
    handle_request fsread fswrite (some root) ⟨verb, bytes "/files/" ++ name, ver, hdrs, body⟩ =
      (match verb with
       | .Get => some (Response.file_response fsread (collectPath root name), [])
       | .Post =>
         match body with
         | none => none
         | some b =>
           if fswrite (collectPath root name) b then
             some (Response.empty_response status_codes.CREATED, [(collectPath root name, b)])
           else
             some (Response.empty_response status_codes.INTERNAL_SERVER_ERROR,
                   [(collectPath root name, b)])) := by
  rw [show bytes "/files/" ++ name = 47 :: (102 :: 105 :: 108 :: 101 :: 115 :: 47 :: name) from rfl]
  simp [handle_request, splitOnce, List.isPrefixOf, bytes, collectPath]

/-! ### The claims -/

/-- C1 (counterexample): for the valid start line `GET / HTTP/1.1` followed
by a blank CRLF line, `parse_request` succeeds, but the stored
`http_version` is `HTTP/1.1\r\n` — the third token with the CRLF terminator
still attached — not exactly the token `HTTP/1.1`; the claim that all three
stored fields equal the bare tokens is false. -/
theorem c1_counterexample :
    parse_request (bytes "GET / HTTP/1.1\r\n\r\n") =
      .ok (⟨Verb.Get, bytes "/", bytes "HTTP/1.1\r\n", [], none⟩, []) ∧
    bytes "HTTP/1.1\r\n" ≠ bytes "HTTP/1.1" := by
  constructor
  · have h := parse_request_three_tokens (bytes "GET") (bytes "/") (bytes "HTTP/1.1")
      (Or.inl rfl) (by decide) (by decide)
    rw [show bytes "GET / HTTP/1.1\r\n\r\n" =
        bytes "GET" ++ [32] ++ bytes "/" ++ [32] ++ bytes "HTTP/1.1"
          ++ bytes "\r\n" ++ bytes "\r\n" from rfl]
    rw [h]
    simp [bytes]
  · decide

/-- C1 (amended): for every valid start line `METHOD PATH VERSION`
terminated by CRLF (METHOD one of GET/POST, PATH and VERSION free of
space and LF, ASCII) followed immediately by a blank CRLF line,
`parse_request` succeeds with exactly that method and path and an empty
header mapping, and with `http_version` equal to the VERSION token with
the terminating CRLF appended (the start line is never trimmed). -/
theorem c1_theorem (method p ver : List Nat)
    (hm : method = bytes "GET" ∨ method = bytes "POST")
    (hp : CleanToken p) (hv : CleanToken ver) :
    parse_request (method ++ [32] ++ p ++ [32] ++ ver ++ bytes "\r\n" ++ bytes "\r\n") =
      .ok (⟨if method = bytes "GET" then Verb.Get else Verb.Post, p,
            ver ++ bytes "\r\n", [], none⟩, []) :=
  parse_request_three_tokens method p ver hm hp hv

theorem c1_witness :
    (bytes "POST" = bytes "GET" ∨ bytes "POST" = bytes "POST") ∧
    CleanToken (bytes "/idx") ∧ CleanToken (bytes "HTTP/1.1") ∧
    parse_request (bytes "POST" ++ [32] ++ bytes "/idx" ++ [32] ++ bytes "HTTP/1.1"
        ++ bytes "\r\n" ++ bytes "\r\n") =
      .ok (⟨if bytes "POST" = bytes "GET" then Verb.Get else Verb.Post, bytes "/idx",
            bytes "HTTP/1.1" ++ bytes "\r\n", [], none⟩, []) :=
  ⟨Or.inr rfl, by decide, by decide,
    c1_theorem (bytes "POST") (bytes "/idx") (bytes "HTTP/1.1") (Or.inr rfl)
      (by decide) (by decide)⟩

/-- C10: a start line with more than three space-separated tokens is not
rejected: the first token is the method, the second the path, the third
the version (here exactly the third token, since the CRLF terminator is
absorbed by the trailing extra text), and everything after the third
token is ignored. `extra` is the arbitrary space-separated trailing text
forming the fourth and later tokens. -/
theorem c10_theorem (method p ver extra : List Nat)
    (hm : method = bytes "GET" ∨ method = bytes "POST")
    (hp : CleanToken p) (hv : CleanToken ver)
    (hex : ∀ c ∈ extra, c ≠ 10 ∧ c < 128) :
    parse_request (method ++ [32] ++ p ++ [32] ++ ver ++ [32] ++ extra
        ++ bytes "\r\n" ++ bytes "\r\n") =
      .ok (⟨if method = bytes "GET" then Verb.Get else Verb.Post, p, ver, [], none⟩, []) :=
  parse_request_extra_tokens method p ver extra hm hp hv hex

theorem c10_witness :
    (bytes "GET" = bytes "GET" ∨ bytes "GET" = bytes "POST") ∧
    CleanToken (bytes "/") ∧ CleanToken (bytes "HTTP/1.1") ∧
    (∀ c ∈ bytes "junk more", c ≠ 10 ∧ c < 128) ∧
    parse_request (bytes "GET" ++ [32] ++ bytes "/" ++ [32] ++ bytes "HTTP/1.1"
        ++ [32] ++ bytes "junk more" ++ bytes "\r\n" ++ bytes "\r\n") =
      .ok (⟨if bytes "GET" = bytes "GET" then Verb.Get else Verb.Post, bytes "/",
            bytes "HTTP/1.1", [], none⟩, []) :=
  ⟨Or.inl rfl, by decide, by decide, by decide,
    c10_theorem (bytes "GET") (bytes "/") (bytes "HTTP/1.1") (bytes "junk more")
      (Or.inl rfl) (by decide) (by decide) (by decide)⟩

/-- C3: serialization writes exactly the status line `HTTP/1.1 <code>
<reason>` + CRLF, then, when content is present, `Content-Type: <mime>` +
CRLF, `Content-Length: <n>` + CRLF with `n` the body length in bytes, a
blank CRLF line and the body bytes verbatim; when content is absent, two
blank CRLF lines and no body — with no trailing framing. Stated as
equality between the source model `Response.write_to_stream` and the
specification-worded `serialize_spec`. -/
theorem c3_theorem (r : Response) : r.write_to_stream = serialize_spec r := by
  obtain ⟨sc, content⟩ := r
  cases content with
  | none =>
    simp [Response.write_to_stream, serialize_spec, write_header, write_newline,
      bytes, List.append_assoc]
  | some c =>
    simp [Response.write_to_stream, serialize_spec, write_header, write_newline,
      bytes, List.append_assoc]

/-- C4: every request whose path is `/echo/<rest>` (`rest` may contain
further `/`) gets, for any method, a 200 response with mime `text/plain`
and body exactly `rest`; in particular `GET /echo/hello` serializes to a
200 response with `Content-Length: 5` and body `hello`. -/
theorem c4_theorem :
    (∀ fsread fswrite cfg verb ver hdrs body rest,
      handle_request fsread fswrite cfg ⟨verb, bytes "/echo/" ++ rest, ver, hdrs, body⟩ =
        some (Response.text_reponse status_codes.OK rest, [])) ∧
    (Response.text_reponse status_codes.OK (bytes "hello")).write_to_stream =
      bytes "HTTP/1.1 200 OK\r\nContent-Type: text/plain\r\nContent-Length: 5\r\n\r\nhello" := by
  constructor
  · intro fsread fswrite cfg verb ver hdrs body rest
    exact handle_request_echo fsread fswrite cfg verb ver hdrs body rest
  · simp [Response.text_reponse, Response.write_to_stream, write_header,
      write_newline, status_codes.OK, renderDec, bytes]

/-- C5: a GET to `/files/<name>` with `files_root` configured returns 200
with mime `application/octet-stream` and the file bytes when the
collaborator read of the joined path succeeds, and 404 with no content
when it fails (not found / unreadable). -/
theorem c5_theorem (fsread : List Nat → Option (List Nat))
    (fswrite : List Nat → List Nat → Bool) (root name ver : List Nat)
    (hdrs : Headers) (body : Option (List Nat)) :
    (∀ bs, fsread (collectPath root name) = some bs →
      handle_request fsread fswrite (some root)
          ⟨Verb.Get, bytes "/files/" ++ name, ver, hdrs, body⟩ =
        some (⟨status_codes.OK, some ⟨bytes "application/octet-stream", bs⟩⟩, [])) ∧
    (fsread (collectPath root name) = none →
      handle_request fsread fswrite (some root)
          ⟨Verb.Get, bytes "/files/" ++ name, ver, hdrs, body⟩ =
        some (Response.empty_response status_codes.NOT_FOUND, [])) := by
  have heval := handle_request_files fsread fswrite root Verb.Get ver hdrs body name
  constructor
  · intro bs hbs
    rw [heval]
    simp [Response.file_response, hbs]
  · intro hnone
    rw [heval]
    simp [Response.file_response, hnone]

theorem c5_witness :
    ((fun q => if q = bytes "root/f.txt" then some (bytes "DATA") else none)
        (collectPath (bytes "root") (bytes "f.txt")) = some (bytes "DATA")) ∧
    handle_request
        (fun q => if q = bytes "root/f.txt" then some (bytes "DATA") else none)
        (fun _ _ => true) (some (bytes "root"))
        ⟨Verb.Get, bytes "/files/f.txt", [], [], none⟩ =
      some (⟨status_codes.OK, some ⟨bytes "application/octet-stream", bytes "DATA"⟩⟩, []) :=
  ⟨by decide,
    (c5_theorem (fun q => if q = bytes "root/f.txt" then some (bytes "DATA") else none)
        (fun _ _ => true) (bytes "root") (bytes "f.txt") [] [] none).1
      (bytes "DATA") (by decide)⟩

/-- C6: a POST to `/files/<name>` with `files_root` configured and a body
present attempts exactly one write of the body bytes to the joined path;
it returns 201 with no content when the write succeeds and 500 with no
content when the write fails. -/
theorem c6_theorem (fsread : List Nat → Option (List Nat))
    (fswrite : List Nat → List Nat → Bool) (root name ver : List Nat)
    (hdrs : Headers) (b : List Nat) :
    (fswrite (collectPath root name) b = true →
      handle_request fsread fswrite (some root)
          ⟨Verb.Post, bytes "/files/" ++ name, ver, hdrs, some b⟩ =
        some (Response.empty_response status_codes.CREATED,
              [(collectPath root name, b)])) ∧
    (fswrite (collectPath root name) b = false →
      handle_request fsread fswrite (some root)
          ⟨Verb.Post, bytes "/files/" ++ name, ver, hdrs, some b⟩ =
        some (Response.empty_response status_codes.INTERNAL_SERVER_ERROR,
              [(collectPath root name, b)])) := by
  have heval := handle_request_files fsread fswrite root Verb.Post ver hdrs (some b) name
  constructor
  · intro hw
    rw [heval]
    simp [hw]
  · intro hw
    rw [heval]
    simp [hw]

theorem c6_witness :
    ((fun _ _ => false : List Nat → List Nat → Bool)
        (collectPath (bytes "root") (bytes "g.txt")) (bytes "abc") = false) ∧
    handle_request (fun _ => none) (fun _ _ => false) (some (bytes "root"))
        ⟨Verb.Post, bytes "/files/g.txt", [], [], some (bytes "abc")⟩ =
      some (Response.empty_response status_codes.INTERNAL_SERVER_ERROR,
            [(collectPath (bytes "root") (bytes "g.txt"), bytes "abc")]) :=
  ⟨rfl,
    (c6_theorem (fun _ => none) (fun _ _ => false) (bytes "root") (bytes "g.txt")
        [] [] (bytes "abc")).2 rfl⟩

/-- C7: a well-formed header block (each line `Key: Value` CRLF-terminated,
terminated by a blank CRLF line) parses to a mapping whose key list has no
duplicates and in which every lookup returns the value of the key's last
occurrence in the block (so each distinct key appears exactly once); and
any non-blank line that does not split on the exact delimiter `": "`
yields the malformed-header-line parse error. -/
theorem c7_theorem :
    (∀ hs rest, (∀ kv ∈ hs, WFHeaderLine kv) →
      ∃ M, read_headers [] ((hs.map encodeHeaderLine).flatten ++ bytes "\r\n" ++ rest) =
          .ok (M, rest) ∧
        (keysH M).Nodup ∧
        ∀ q, findH M q = lastAssoc hs q) ∧
    (∀ m line rest, (∀ c ∈ line, c ≠ 10) → trimEnd line ≠ [] →
      splitOnce (bytes ": ") (trimEnd line) = none →
      read_headers m (line ++ 10 :: rest) = .error .InvalidHeader) := by
  constructor
  · intro hs rest hwf
    refine ⟨hs.foldl insertStep [], read_headers_block hs [] rest hwf, ?_, ?_⟩
    · exact nodup_keysH_foldl hs [] (by simp [keysH])
    · intro q
      rw [findH_foldl]
      cases lastAssoc hs q <;> simp [findH]
  · intro m line rest h10 hne hsp
    exact read_headers_malformed m line rest h10 hne hsp

theorem c7_witness :
    (∀ kv ∈ [(bytes "A", bytes "1"), (bytes "B", bytes "2"), (bytes "A", bytes "3")],
      WFHeaderLine kv) ∧
    (∃ M, read_headers []
          (([(bytes "A", bytes "1"), (bytes "B", bytes "2"),
             (bytes "A", bytes "3")].map encodeHeaderLine).flatten
            ++ bytes "\r\n" ++ bytes "X") =
        .ok (M, bytes "X") ∧
      (keysH M).Nodup ∧
      ∀ q, findH M q =
        lastAssoc [(bytes "A", bytes "1"), (bytes "B", bytes "2"),
                   (bytes "A", bytes "3")] q) := by
  have hwf : ∀ kv ∈ [(bytes "A", bytes "1"), (bytes "B", bytes "2"),
      (bytes "A", bytes "3")], WFHeaderLine kv := by
    intro kv hkv
    simp only [List.mem_cons, List.not_mem_nil, or_false] at hkv
    rcases hkv with rfl | rfl | rfl
    · exact ⟨by decide, by decide, by decide, ⟨49, by decide, by decide⟩⟩
    · exact ⟨by decide, by decide, by decide, ⟨50, by decide, by decide⟩⟩
    · exact ⟨by decide, by decide, by decide, ⟨51, by decide, by decide⟩⟩
  exact ⟨hwf, c7_theorem.1 _ (bytes "X") hwf⟩

/-- C9: header lines are trimmed of all trailing whitespace (spaces and
tabs as well as the CR of the CRLF terminator) before the key/value
split; consequently a stored header value never ends in a whitespace byte
(and is never empty), and a line consisting solely of whitespace
terminates the header block normally instead of being rejected. -/
theorem c9_theorem :
    (∀ m k v w rest, (∀ c ∈ k, c ≠ 10) → (∀ c ∈ v, c ≠ 10) →
      (∀ c ∈ w, isWsByte c = true ∧ c ≠ 10) →
      splitOnce (bytes ": ") k = none →
      (∃ c, v.getLast? = some c ∧ isWsByte c = false) →
      read_headers m (k ++ bytes ": " ++ v ++ w ++ 10 :: rest) =
        read_headers (insertH m k v) rest) ∧
    (∀ s M rest, read_headers [] s = .ok (M, rest) →
      ∀ kv ∈ M, kv.2 ≠ [] ∧ ∀ c, kv.2.getLast? = some c → isWsByte c = false) ∧
    (∀ m w rest, (∀ c ∈ w, isWsByte c = true ∧ c ≠ 10) →
      read_headers m (w ++ 10 :: rest) = .ok (m, rest)) := by
  refine ⟨read_headers_step, ?_, read_headers_blank⟩
  intro s M rest h
  have main := read_headers_ok_invariant
    (fun m => ∀ kv ∈ m, kv.2 ≠ [] ∧ ∀ c, kv.2.getLast? = some c → isWsByte c = false)
    ?_ s.length s [] M rest le_rfl (by simp) h
  · exact main
  · intro m t k v hP hsp kv hkv
    rcases mem_insertH m k v kv hkv with rfl | hmem
    · have hstruct : trimEnd t = k ++ bytes ": " ++ v :=
        splitOnce_structure (bytes ": ") (trimEnd t) k v hsp
      have hv_ne : v ≠ [] := by
        intro hv0
        subst hv0
        have h32 : (trimEnd t).getLast? = some 32 := by
          rw [hstruct]
          rw [show k ++ bytes ": " ++ [] = (k ++ [58]) ++ [32] by
            simp [bytes, List.append_assoc]]
          exact List.getLast?_concat _
        have := trimEnd_getLast_not_ws t 32 h32
        simp [isWsByte] at this
      refine ⟨hv_ne, ?_⟩
      intro c hc
      have hc' : v.getLast? = some c := hc
      apply trimEnd_getLast_not_ws t c
      rw [hstruct, List.append_assoc,
        List.getLast?_append_of_ne_nil _ (by simp [bytes, hv_ne]),
        List.getLast?_append_of_ne_nil _ hv_ne]
      exact hc'
    · exact hP kv hmem

theorem c9_witness :
    ((∀ c ∈ bytes "Key", c ≠ 10) ∧ (∀ c ∈ bytes "val", c ≠ 10) ∧
      (∀ c ∈ [32, 9, 13], isWsByte c = true ∧ c ≠ 10) ∧
      splitOnce (bytes ": ") (bytes "Key") = none ∧
      (∃ c, (bytes "val").getLast? = some c ∧ isWsByte c = false)) ∧
    read_headers [] (bytes "Key" ++ bytes ": " ++ bytes "val" ++ [32, 9, 13]
        ++ 10 :: (13 :: 10 :: [])) =
      read_headers (insertH [] (bytes "Key") (bytes "val")) (13 :: 10 :: []) :=
  ⟨⟨by decide, by decide, by decide, by decide, ⟨108, by decide, by decide⟩⟩,
    c9_theorem.1 [] (bytes "Key") (bytes "val") [32, 9, 13] (13 :: 10 :: [])
      (by decide) (by decide) (by decide) (by decide)
      ⟨108, by decide, by decide⟩⟩

/-! ### Inversion lemmas for the request pipeline -/

theorem read_body_ok_inversion (hm : Headers) (s : List Nat)
    (b : Option (List Nat)) (rem : List Nat)
    (h : read_body hm s = .ok (b, rem)) :
    (b = none ∧ rem = s ∧ findH hm (bytes "Content-Length") = none) ∨
    (∃ lv n, findH hm (bytes "Content-Length") = some lv ∧ parse_usize lv = some n ∧
      b = some (s.take n) ∧ rem = s.drop n ∧ n ≤ s.length) := by
  rw [read_body] at h
  split at h
  next lv hcl =>
    split at h
    next hpu => exact absurd h (by simp)
    next n hpu =>
      split at h
      next hlen => exact absurd h (by simp)
      next hlen =>
        injection h with h'
        injection h' with h1 h2
        exact Or.inr ⟨lv, n, hcl, hpu, h1.symm, h2.symm, by omega⟩
  next hcl =>
    injection h with h'
    injection h' with h1 h2
    exact Or.inl ⟨h1.symm, h2.symm, hcl⟩

theorem parse_request_ok_inversion (s : List Nat) (req : Request) (rem : List Nat)
    (h : parse_request s = .ok (req, rem)) :
    ∃ vb p ver hm rest b,
      parse_start_line (read_line s).1 = .ok (vb, p, ver) ∧
      read_headers [] (read_line s).2 = .ok (hm, rest) ∧
      read_body hm rest = .ok (b, rem) ∧
      req = ⟨vb, p, ver, hm, b⟩ := by
  rw [parse_request] at h
  split at h
  next e heq => exact absurd h (by simp)
  next vb p ver heq =>
    split at h
    next e heq2 => exact absurd h (by simp)
    next hm rest heq2 =>
      split at h
      next e heq3 => exact absurd h (by simp)
      next b rem' heq3 =>
        injection h with h'
        injection h' with h1 h2
        subst h2
        exact ⟨vb, p, ver, hm, rest, b, heq, heq2, heq3, h1.symm⟩

/-- C2: for every successfully parsed request, the body is present iff a
header with exact key `Content-Length` was present and its value parsed
as a `usize`, and the body then consists of exactly that many bytes taken
off the stream right after the header block; an unparsable value yields
the malformed-Content-Length error, and a stream with fewer bytes than
announced yields the body-read-failure error (the I/O-error case of
`read_exact` is represented by the short stream), and in either error
case `parse_request` yields that error and no request. -/
theorem c2_theorem :
    (∀ s req rem, parse_request s = .ok (req, rem) →
      ∃ rest, read_headers [] (read_line s).2 = .ok (req.headers, rest) ∧
        read_body req.headers rest = .ok (req.body, rem) ∧
        (req.body.isSome = true ↔
          ∃ lv n, findH req.headers (bytes "Content-Length") = some lv ∧
            parse_usize lv = some n) ∧
        (∀ b, req.body = some b → b ++ rem = rest ∧
          ∃ lv, findH req.headers (bytes "Content-Length") = some lv ∧
            parse_usize lv = some b.length)) ∧
    (∀ hm s lv, findH hm (bytes "Content-Length") = some lv → parse_usize lv = none →
      read_body hm s = .error .InvalidContentLength) ∧
    (∀ hm s lv n, findH hm (bytes "Content-Length") = some lv →
      parse_usize lv = some n → s.length < n →
      read_body hm s = .error .CouldNotReadBody) ∧
    (∀ s vb p ver hm rest, parse_start_line (read_line s).1 = .ok (vb, p, ver) →
      read_headers [] (read_line s).2 = .ok (hm, rest) →
      parse_request s = Except.map (fun br => (⟨vb, p, ver, hm, br.1⟩, br.2))
        (read_body hm rest)) := by
  refine ⟨?_, ?_, ?_, ?_⟩
  · intro s req rem h
    obtain ⟨vb, p, ver, hm, rest, b, hsl, hrh, hrb, hreq⟩ :=
      parse_request_ok_inversion s req rem h
    subst hreq
    refine ⟨rest, hrh, hrb, ?_, ?_⟩
    · rcases read_body_ok_inversion hm rest b rem hrb with
        ⟨hb, hrem, hcl⟩ | ⟨lv, n, hcl, hpu, hb, hrem, hlen⟩
      · constructor
        · intro hs
          rw [show Request.headers ⟨vb, p, ver, hm, b⟩ = hm from rfl] at *
          rw [show Request.body ⟨vb, p, ver, hm, b⟩ = b from rfl] at hs
          rw [hb] at hs
          simp at hs
        · rintro ⟨lv, n, hlv, _⟩
          rw [show Request.headers ⟨vb, p, ver, hm, b⟩ = hm from rfl] at hlv
          rw [hcl] at hlv
          exact absurd hlv (by simp)
      · constructor
        · intro _
          exact ⟨lv, n, hcl, hpu⟩
        · intro _
          rw [show Request.body ⟨vb, p, ver, hm, b⟩ = b from rfl, hb]
          rfl
    · intro b' hb'
      rw [show Request.body ⟨vb, p, ver, hm, b⟩ = b from rfl] at hb'
      subst hb'
      rcases read_body_ok_inversion hm rest (some b') rem hrb with
        ⟨hb, _, _⟩ | ⟨lv, n, hcl, hpu, hb, hrem, hlen⟩
      · exact absurd hb (by simp)
      · injection hb with hb1
        constructor
        · rw [hb1, hrem]
          exact List.take_append_drop n rest
        · refine ⟨lv, hcl, ?_⟩
          rw [hb1, List.length_take]
          rw [show min n rest.length = n from by omega]
          exact hpu
  · intro hm s lv hlv hpu
    rw [read_body, hlv]
    simp [hpu]
  · intro hm s lv n hlv hpu hlen
    rw [read_body, hlv]
    simp [hpu, hlen]
  · intro s vb p ver hm rest hsl hrh
    cases hrb : read_body hm rest with
    | error e => simp only [parse_request, hsl, hrh, hrb, Except.map]
    | ok br =>
      obtain ⟨b, rem⟩ := br
      simp only [parse_request, hsl, hrh, hrb, Except.map]

theorem c2_witness :
    parse_request (bytes "POST /x HTTP/1.1\r\nContent-Length: 3\r\n\r\nabc") =
      .ok (⟨Verb.Post, bytes "/x", bytes "HTTP/1.1\r\n",
            [(bytes "Content-Length", bytes "3")], some (bytes "abc")⟩, []) ∧
    (∃ rest, read_headers []
          ((read_line (bytes "POST /x HTTP/1.1\r\nContent-Length: 3\r\n\r\nabc")).2) =
        .ok ((⟨Verb.Post, bytes "/x", bytes "HTTP/1.1\r\n",
              [(bytes "Content-Length", bytes "3")],
              some (bytes "abc")⟩ : Request).headers, rest) ∧
      read_body (⟨Verb.Post, bytes "/x", bytes "HTTP/1.1\r\n",
            [(bytes "Content-Length", bytes "3")],
            some (bytes "abc")⟩ : Request).headers rest =
        .ok ((⟨Verb.Post, bytes "/x", bytes "HTTP/1.1\r\n",
              [(bytes "Content-Length", bytes "3")],
              some (bytes "abc")⟩ : Request).body, []) ∧
      ((⟨Verb.Post, bytes "/x", bytes "HTTP/1.1\r\n",
            [(bytes "Content-Length", bytes "3")],
            some (bytes "abc")⟩ : Request).body.isSome = true ↔
        ∃ lv n, findH (⟨Verb.Post, bytes "/x", bytes "HTTP/1.1\r\n",
              [(bytes "Content-Length", bytes "3")],
              some (bytes "abc")⟩ : Request).headers (bytes "Content-Length") = some lv ∧
          parse_usize lv = some n) ∧
      (∀ b, (⟨Verb.Post, bytes "/x", bytes "HTTP/1.1\r\n",
            [(bytes "Content-Length", bytes "3")],
            some (bytes "abc")⟩ : Request).body = some b → b ++ [] = rest ∧
        ∃ lv, findH (⟨Verb.Post, bytes "/x", bytes "HTTP/1.1\r\n",
              [(bytes "Content-Length", bytes "3")],
              some (bytes "abc")⟩ : Request).headers (bytes "Content-Length") = some lv ∧
          parse_usize lv = some b.length)) := by
  have hp : parse_request (bytes "POST /x HTTP/1.1\r\nContent-Length: 3\r\n\r\nabc") =
      .ok (⟨Verb.Post, bytes "/x", bytes "HTTP/1.1\r\n",
            [(bytes "Content-Length", bytes "3")], some (bytes "abc")⟩, []) := by
    simp [parse_request, read_headers, read_line, trimEnd, List.dropWhile, splitOnce,
      splitOnChar, bytes, isWsByte, List.isPrefixOf, insertH, parse_start_line,
      read_body, findH, parse_usize, decVal, isDigit]
  exact ⟨hp, c2_theorem.1 _ _ _ hp⟩

theorem getLast?_exists_mem (l : List Nat) (h : l ≠ []) :
    ∃ c, l.getLast? = some c ∧ c ∈ l := by
  cases hgl : l.getLast? with
  | none => exact absurd (List.getLast?_eq_none_iff.mp hgl) h
  | some c =>
    refine ⟨c, rfl, ?_⟩
    obtain ⟨h', he⟩ := List.mem_getLast?_eq_getLast (show c ∈ l.getLast? from hgl)
    rw [he]
    exact List.getLast_mem h'

/-- C8: serializing any catalog-status response with content
`{mime: text/plain, body: b}` and re-parsing the bytes as a raw HTTP
message (status line; CRLF-terminated header lines up to a blank line;
body = the remaining bytes) yields a `Content-Length` header that is the
decimal rendering of `b.length` — all digits, with numeric value exactly
`b.length` — and a message body identical to `b`. -/
theorem c8_theorem (sc : StatusCode) (b : List Nat)
    (hsc : sc = status_codes.OK ∨ sc = status_codes.CREATED ∨
      sc = status_codes.NOT_FOUND ∨ sc = status_codes.INTERNAL_SERVER_ERROR) :
    ∃ sl M, rawParseMessage (Response.write_to_stream ⟨sc, some ⟨bytes "text/plain", b⟩⟩) =
        some (sl, M, b) ∧
      findH M (bytes "Content-Length") = some (renderDec b.length) ∧
      (∀ c ∈ renderDec b.length, isDigit c = true) ∧
      decVal (renderDec b.length) = b.length := by
  have hDdig := renderDec_digits b.length
  have hD10 : ∀ c ∈ renderDec b.length, c ≠ 10 :=
    fun c hc => isDigit_ne_lf c (hDdig c hc)
  have hDlast : ∃ c, (renderDec b.length).getLast? = some c ∧ isWsByte c = false := by
    obtain ⟨c, hgl, hmem⟩ := getLast?_exists_mem _ (renderDec_ne_nil b.length)
    exact ⟨c, hgl, isDigit_not_ws c (hDdig c hmem)⟩
  have hstat10 : ∀ c ∈ sc.status, c ≠ 10 := by
    rcases hsc with rfl | rfl | rfl | rfl <;> decide
  have hser : Response.write_to_stream ⟨sc, some ⟨bytes "text/plain", b⟩⟩ =
      (bytes "HTTP/1.1 " ++ renderDec sc.code ++ bytes " " ++ sc.status ++ [13]) ++ 10 ::
        (bytes "Content-Type" ++ bytes ": " ++ bytes "text/plain" ++ [13] ++ 10 ::
          (bytes "Content-Length" ++ bytes ": " ++ renderDec b.length ++ [13] ++ 10 ::
            (13 :: 10 :: b))) := by
    simp [Response.write_to_stream, write_header, write_newline, bytes, List.append_assoc]
  have hA : ∀ c ∈ bytes "HTTP/1.1 " ++ renderDec sc.code ++ bytes " " ++ sc.status ++ [13],
      c ≠ 10 := by
    intro c hc
    simp only [List.append_assoc, List.mem_append, List.mem_cons,
      List.not_mem_nil, or_false] at hc
    rcases hc with hc | hc | hc | hc | rfl
    · rw [show bytes "HTTP/1.1 " = [72, 84, 84, 80, 47, 49, 46, 49, 32] from rfl] at hc
      simp at hc
      omega
    · exact isDigit_ne_lf c (renderDec_digits sc.code c hc)
    · rw [show bytes " " = [32] from rfl] at hc
      simp at hc
      omega
    · exact hstat10 c hc
    · omega
  have hrl : read_line ((bytes "HTTP/1.1 " ++ renderDec sc.code ++ bytes " "
        ++ sc.status ++ [13]) ++ 10 ::
        (bytes "Content-Type" ++ bytes ": " ++ bytes "text/plain" ++ [13] ++ 10 ::
          (bytes "Content-Length" ++ bytes ": " ++ renderDec b.length ++ [13] ++ 10 ::
            (13 :: 10 :: b)))) =
      ((bytes "HTTP/1.1 " ++ renderDec sc.code ++ bytes " " ++ sc.status ++ [13]) ++ [10],
        bytes "Content-Type" ++ bytes ": " ++ bytes "text/plain" ++ [13] ++ 10 ::
          (bytes "Content-Length" ++ bytes ": " ++ renderDec b.length ++ [13] ++ 10 ::
            (13 :: 10 :: b))) :=
    read_line_append _ _ hA
  have hstep1 : read_headers []
      (bytes "Content-Type" ++ bytes ": " ++ bytes "text/plain" ++ [13] ++ 10 ::
        (bytes "Content-Length" ++ bytes ": " ++ renderDec b.length ++ [13] ++ 10 ::
          (13 :: 10 :: b))) =
      read_headers [(bytes "Content-Type", bytes "text/plain")]
        (bytes "Content-Length" ++ bytes ": " ++ renderDec b.length ++ [13] ++ 10 ::
          (13 :: 10 :: b)) := by
    have := read_headers_step [] (bytes "Content-Type") (bytes "text/plain") [13]
      (bytes "Content-Length" ++ bytes ": " ++ renderDec b.length ++ [13] ++ 10 ::
        (13 :: 10 :: b))
      (by decide) (by decide)
      (by intro c hc; simp at hc; subst hc; exact ⟨rfl, by omega⟩)
      (by decide) ⟨110, by decide, by decide⟩
    simpa [insertH] using this
  have hstep2 : read_headers [(bytes "Content-Type", bytes "text/plain")]
      (bytes "Content-Length" ++ bytes ": " ++ renderDec b.length ++ [13] ++ 10 ::
        (13 :: 10 :: b)) =
      .ok ([(bytes "Content-Type", bytes "text/plain"),
            (bytes "Content-Length", renderDec b.length)], b) := by
    have := read_headers_step [(bytes "Content-Type", bytes "text/plain")]
      (bytes "Content-Length") (renderDec b.length) [13] (13 :: 10 :: b)
      (by decide) hD10
      (by intro c hc; simp at hc; subst hc; exact ⟨rfl, by omega⟩)
      (by decide) hDlast
    rw [this, read_headers_crlf]
    simp [insertH, show ¬ (bytes "Content-Type" = bytes "Content-Length") from by decide]
  refine ⟨(bytes "HTTP/1.1 " ++ renderDec sc.code ++ bytes " " ++ sc.status ++ [13]) ++ [10],
    [(bytes "Content-Type", bytes "text/plain"),
     (bytes "Content-Length", renderDec b.length)], ?_, ?_, hDdig, decVal_renderDec _⟩
  · rw [hser]
    simp only [rawParseMessage, hrl, hstep1, hstep2]
  · simp [findH, show ¬ (bytes "Content-Type" = bytes "Content-Length") from by decide]

theorem c8_witness :
    (status_codes.OK = status_codes.OK ∨ status_codes.OK = status_codes.CREATED ∨
      status_codes.OK = status_codes.NOT_FOUND ∨
      status_codes.OK = status_codes.INTERNAL_SERVER_ERROR) ∧
    (∃ sl M, rawParseMessage
          (Response.write_to_stream ⟨status_codes.OK, some ⟨bytes "text/plain", bytes "hi"⟩⟩) =
        some (sl, M, bytes "hi") ∧
      findH M (bytes "Content-Length") = some (renderDec (bytes "hi").length) ∧
      (∀ c ∈ renderDec (bytes "hi").length, isDigit c = true) ∧
      decVal (renderDec (bytes "hi").length) = (bytes "hi").length) :=
  ⟨Or.inl rfl, c8_theorem status_codes.OK (bytes "hi") (Or.inl rfl)⟩

end HttpServer
